import Mathlib

/-!
Verification of the two-view reconstruction core (`reconstruction.py`).

The Python module works on numpy float arrays; we embed it over the real
numbers, with points as functions `Fin n → ℝ` and matrices as Mathlib
matrices.  The external linear-algebra collaborators (numpy SVD and QR,
which the specification explicitly treats as trusted library calls) are
modelled as function parameters; theorems about them take the library
contract (orthogonality, triangularity, factorization) as hypotheses.
The random sampling inside RANSAC is modelled by an oracle giving the
inlier index set produced at each iteration.
-/

noncomputable section

namespace Reconstruction

open Matrix

/-- A 3D point track, as consumed by `resection`: a homogeneous 3D point
(`pt`, scale component `pt 3`, zero meaning "not yet triangulated") and a
partial map from view index to the 2D observation in that view. -/
structure Track where
  pt : Fin 4 → ℝ
  views : ℕ → Option (Fin 2 → ℝ)

/-- Modelled from the spec: `maths.hat_operator` is not under `src/`; the
spec describes it as the 3×3 skew-symmetric matrix with
`hat_operator e *ᵥ v = e × v` for every 3-vector `v`. -/
def hat_operator (e : Fin 3 → ℝ) : Matrix (Fin 3) (Fin 3) ℝ :=
  Matrix.of ![![0, -(e 2), e 1], ![e 2, 0, -(e 0)], ![-(e 1), e 0, 0]]

/-- `compute_proj_camera(F, i)` from the code: `P = [[e]_x F | e]` where
`e = mth.nullspace(F.T)`.  `maths.nullspace` is not under `src/`; modelled
from the spec, its output is passed in as the parameter `e` (a generator of
the left null space of `F`, constrained in the theorems).  The unused view
index `i` is kept to mirror the code signature. -/
def compute_proj_camera (e : Fin 3 → ℝ) (F : Matrix (Fin 3) (Fin 3) ℝ) (_i : ℕ) :
    Matrix (Fin 3) (Fin 4) ℝ :=
  Matrix.of fun r c => if h : (c : ℕ) < 3 then (hat_operator e * F) r ⟨c, h⟩ else e r

/-- `homog` from the code, applied to one 2D point: append scale 1. -/
def homogenize (v : Fin 2 → ℝ) : Fin 3 → ℝ :=
  fun k => if h : (k : ℕ) < 2 then v ⟨k, h⟩ else 1

/-- `euclid` from the code, on one homogeneous 2D point: drop the last
coordinate after dividing by it. -/
def euclid2 (p : Fin 3 → ℝ) : Fin 2 → ℝ :=
  fun k => p ⟨(k : ℕ), by omega⟩ / p 2

/-- Column mean of the first 2D coordinate (`np.mean(pts[:, :2], axis=0)`). -/
def m2x (pts : List (Fin 3 → ℝ)) : ℝ := (pts.map fun p => p 0).sum / pts.length

/-- Column mean of the second 2D coordinate. -/
def m2y (pts : List (Fin 3 → ℝ)) : ℝ := (pts.map fun p => p 1).sum / pts.length

/-- `np.std(pts[:, :2])`: the standard deviation of all `2N` coordinate
values flattened together, around their single global mean. -/
def std2 (pts : List (Fin 3 → ℝ)) : ℝ :=
  let N : ℝ := pts.length
  let mu : ℝ := ((pts.map fun p => p 0).sum + (pts.map fun p => p 1).sum) / (2 * N)
  Real.sqrt ((((pts.map fun p => (p 0 - mu) ^ 2).sum +
      (pts.map fun p => (p 1 - mu) ^ 2).sum)) / (2 * N))

/-- The 2D normalization transform built by `normalize2dpts`. -/
def normT2 (pts : List (Fin 3 → ℝ)) : Matrix (Fin 3) (Fin 3) ℝ :=
  let S : ℝ := Real.sqrt 2 / std2 pts
  Matrix.of ![![S, 0, -S * m2x pts], ![0, S, -S * m2y pts], ![0, 0, 1]]

/-- `normalize2dpts` from the code: transformed points and the transform. -/
def normalize2dpts (pts : List (Fin 3 → ℝ)) :
    List (Fin 3 → ℝ) × Matrix (Fin 3) (Fin 3) ℝ :=
  (pts.map fun p => (normT2 pts) *ᵥ p, normT2 pts)

/-- Column mean of the first 3D coordinate. -/
def m3x (pts : List (Fin 4 → ℝ)) : ℝ := (pts.map fun p => p 0).sum / pts.length

/-- Column mean of the second 3D coordinate. -/
def m3y (pts : List (Fin 4 → ℝ)) : ℝ := (pts.map fun p => p 1).sum / pts.length

/-- Column mean of the third 3D coordinate. -/
def m3z (pts : List (Fin 4 → ℝ)) : ℝ := (pts.map fun p => p 2).sum / pts.length

/-- `np.std(pts[:, :3])`: standard deviation of all `3N` coordinates. -/
def std3 (pts : List (Fin 4 → ℝ)) : ℝ :=
  let N : ℝ := pts.length
  let mu : ℝ := ((pts.map fun p => p 0).sum + (pts.map fun p => p 1).sum +
      (pts.map fun p => p 2).sum) / (3 * N)
  Real.sqrt ((((pts.map fun p => (p 0 - mu) ^ 2).sum +
      (pts.map fun p => (p 1 - mu) ^ 2).sum +
      (pts.map fun p => (p 2 - mu) ^ 2).sum)) / (3 * N))

/-- The 3D normalization transform built by `normalize3dpts`. -/
def normT3 (pts : List (Fin 4 → ℝ)) : Matrix (Fin 4) (Fin 4) ℝ :=
  let S : ℝ := Real.sqrt 2 / std3 pts
  Matrix.of ![![S, 0, 0, -S * m3x pts], ![0, S, 0, -S * m3y pts],
    ![0, 0, S, -S * m3z pts], ![0, 0, 0, 1]]

/-- `normalize3dpts` from the code. -/
def normalize3dpts (pts : List (Fin 4 → ℝ)) :
    List (Fin 4 → ℝ) × Matrix (Fin 4) (Fin 4) ℝ :=
  (pts.map fun p => (normT3 pts) *ᵥ p, normT3 pts)

/-- Zero 3D homogeneous point, used as the (never reachable) out-of-range
default when indexing point lists. -/
def z4 : Fin 4 → ℝ := fun _ => 0

/-- Zero 2D homogeneous point default. -/
def z3 : Fin 3 → ℝ := fun _ => 0

/-- Row `A[2*i]` of the DLT coefficient matrix:
`concatenate((zeros(4), -w*X, y*X))` for `x, y, w = pts2d[i]`. -/
def dltRowA (X : Fin 4 → ℝ) (x : Fin 3 → ℝ) : Fin 12 → ℝ :=
  fun k =>
    if h4 : (k : ℕ) < 4 then 0
    else if h8 : (k : ℕ) < 8 then -(x 2) * X ⟨(k : ℕ) - 4, by omega⟩
    else x 1 * X ⟨(k : ℕ) - 8, by have := k.isLt; omega⟩

/-- Row `A[2*i+1]` of the DLT coefficient matrix:
`concatenate((w*X, zeros(4), -x*X))`. -/
def dltRowB (X : Fin 4 → ℝ) (x : Fin 3 → ℝ) : Fin 12 → ℝ :=
  fun k =>
    if h4 : (k : ℕ) < 4 then x 2 * X ⟨(k : ℕ), h4⟩
    else if h8 : (k : ℕ) < 8 then 0
    else -(x 0) * X ⟨(k : ℕ) - 8, by have := k.isLt; omega⟩

/-- The DLT coefficient matrix `A` built by `camera_matrix`: the code
allocates `np.empty((2*6, 12))` and loops `for i in range(6)`, writing the
two rows for correspondence `i` — twelve rows total, whatever the number of
supplied correspondences. -/
def dltMatrix (pts3d : List (Fin 4 → ℝ)) (pts2d : List (Fin 3 → ℝ)) :
    List (Fin 12 → ℝ) :=
  (List.range 6).flatMap fun i =>
    [dltRowA (pts3d.getD i z4) (pts2d.getD i z3),
     dltRowB (pts3d.getD i z4) (pts2d.getD i z3)]

/-- `p.reshape((3, 4))`, row-major. -/
def reshape34 (p : Fin 12 → ℝ) : Matrix (Fin 3) (Fin 4) ℝ :=
  Matrix.of fun i j => p ⟨4 * (i : ℕ) + (j : ℕ), by have := i.isLt; have := j.isLt; omega⟩

/-- The denormalized camera matrix inside `camera_matrix`, before the final
scale normalization: `T2.T @ P_normalized @ T1`, where `P_normalized` is the
reshaped null vector returned by the SVD collaborator `svd` on the DLT
matrix of the normalized points. -/
def denormP (svd : List (Fin 12 → ℝ) → Fin 12 → ℝ)
    (pts3d : List (Fin 4 → ℝ)) (pts2d : List (Fin 3 → ℝ)) :
    Matrix (Fin 3) (Fin 4) ℝ :=
  (normalize2dpts pts2d).2ᵀ *
    reshape34 (svd (dltMatrix (normalize3dpts pts3d).1 (normalize2dpts pts2d).1)) *
    (normalize3dpts pts3d).2

/-- `camera_matrix` from the code: normalize both point sets, build the DLT
matrix, take the SVD null vector (`svd` is the trusted linear-algebra
collaborator returning the right singular vector of smallest singular
value), reshape, denormalize, and divide by the bottom-right entry. -/
def camera_matrix (svd : List (Fin 12 → ℝ) → Fin 12 → ℝ)
    (pts3d : List (Fin 4 → ℝ)) (pts2d : List (Fin 3 → ℝ)) :
    Matrix (Fin 3) (Fin 4) ℝ :=
  (denormP svd pts3d pts2d 2 3)⁻¹ • denormP svd pts3d pts2d

/-- `np.finfo(float).eps`. -/
def machineEps : ℝ := (2 : ℝ) ^ (-52 : ℤ)

/-- State of the adaptive RANSAC loop in `resection`: iteration counter,
current (real-valued) iteration budget, and the best inlier index set. -/
structure RState where
  it : ℕ
  maxIt : ℝ
  best : List ℕ

/-- One body execution of the RANSAC loop, given the inlier index set
`inliers` computed for the current random sample: update the best inlier
set, recompute the clamped adaptive budget, and advance the counter. -/
def ransacUpdate (n : ℕ) (s : RState) (inliers : List ℕ) : RState :=
  let best := if s.best.length < inliers.length then inliers else s.best
  let frac : ℝ := (best.length : ℝ) / (n : ℝ)
  let pNo : ℝ := min (1 - machineEps) (max machineEps (1 - frac ^ 6))
  { it := s.it + 1
    maxIt := min s.maxIt (Real.log (1 - 0.999) / Real.log pNo)
    best := best }

/-- Initial RANSAC state: `it = 0`, `max_it = 1000`, no inliers yet. -/
def ransacInit : RState := ⟨0, 1000, []⟩

/-- One guard check of the `while it < max_it` loop: run the body when the
counter is below the budget, otherwise leave the state unchanged. -/
def ransacStepFn (inl : ℕ → List ℕ) (n : ℕ) (s : RState) : RState :=
  if (s.it : ℝ) < s.maxIt then ransacUpdate n s (inl s.it) else s

/-- The RANSAC loop after `k` guard checks: starting from `ransacInit`,
while `it < max_it` run `ransacUpdate` with the oracle `inl` giving the
inlier set found at each iteration (abstracting the random sample, the
candidate camera fit and the threshold test). -/
def ransacRun (inl : ℕ → List ℕ) (n : ℕ) : ℕ → RState
  | 0 => ransacInit
  | k + 1 => ransacStepFn inl n (ransacRun inl n k)

/-- Failure modes of `resection`.  `concatenateFailure` is the error raised
by `homog`'s `np.concatenate(..., axis=1)` when the gathered 2D observation
array is empty (1-D), before the RANSAC loop is ever entered;
`samplingFailure` is the error raised by
`np.random.choice(range(n), 6, replace=False)` when `0 < n < 6`;
`insufficientCorrespondences` is the error kind named by the spec for the
too-few-correspondences situation (never produced by the code);
`insufficientInliers` is the `ValueError` raised when the best consensus
has fewer than 6 members. -/
inductive ResectionError where
  | concatenateFailure
  | samplingFailure
  | insufficientCorrespondences
  | insufficientInliers
deriving DecidableEq

/-- One guard check of the loop with the sampling failure made explicit:
each body execution first draws the 6-element random sample, which raises
when the population `n` is smaller than 6. -/
def ransacStepE (inl : ℕ → List ℕ) (n : ℕ) (r : Except ResectionError RState) :
    Except ResectionError RState :=
  match r with
  | .error e => .error e
  | .ok s =>
    if (s.it : ℝ) < s.maxIt then
      if n < 6 then .error .samplingFailure
      else .ok (ransacUpdate n s (inl s.it))
    else .ok s

/-- The RANSAC loop of `resection` after `k` guard checks, with the
sampling failure made explicit. -/
def ransacRunE (inl : ℕ → List ℕ) (n : ℕ) : ℕ → Except ResectionError RState
  | 0 => .ok ransacInit
  | k + 1 => ransacStepE inl n (ransacRunE inl n k)

/-- The correspondence test of `resection`: a track contributes iff its 3D
point has nonzero homogeneous scale and it has an observation in view `i`. -/
def usable (i : ℕ) (tk : Track) : Option ((Fin 4 → ℝ) × (Fin 2 → ℝ)) :=
  if tk.pt 3 ≠ 0 then (tk.views i).map fun v => (tk.pt, v) else none

/-- The 3D–2D correspondence set gathered by `resection` for view `i`. -/
def gather (tracks : List Track) (i : ℕ) : List ((Fin 4 → ℝ) × (Fin 2 → ℝ)) :=
  tracks.filterMap (usable i)

/-- Fancy indexing `pts[indices]`. -/
def select {α : Type} (l : List α) (d : α) (idx : List ℕ) : List α :=
  idx.map fun j => l.getD j d

/-- The tail of `resection` after the RANSAC loop: propagate a loop error;
otherwise fail when the best consensus is below 6, and re-fit the camera on
the best inlier correspondences (3D points and homogenized 2D points
selected from the gathered correspondence list `corr`). -/
def resectionFinish (svd : List (Fin 12 → ℝ) → Fin 12 → ℝ)
    (corr : List ((Fin 4 → ℝ) × (Fin 2 → ℝ)))
    (r : Except ResectionError RState) :
    Except ResectionError (Matrix (Fin 3) (Fin 4) ℝ) :=
  match r with
  | .error e => .error e
  | .ok s =>
    if s.best.length < 6 then .error .insufficientInliers
    else .ok (camera_matrix svd
      (select (corr.map Prod.fst) z4 s.best)
      (select ((corr.map Prod.snd).map homogenize) z3 s.best))

/-- `resection(tracks, i)` from the code: gather correspondences,
homogenize the 2D observations — with no gathered correspondences this is
where the call already fails, since `homog` hits
`np.concatenate((x, np.ones((0, 1))), axis=1)` on the empty 1-D array —
then run the adaptive RANSAC loop (the absolute cap of 1000 guard checks is
enough for the loop to finish, see the budget invariant), fail when the
best consensus is below 6, and otherwise re-fit the camera on the best
inlier set. -/
def resection (svd : List (Fin 12 → ℝ) → Fin 12 → ℝ) (inl : ℕ → List ℕ)
    (tracks : List Track) (i : ℕ) :
    Except ResectionError (Matrix (Fin 3) (Fin 4) ℝ) :=
  if (gather tracks i).length = 0 then .error .concatenateFailure
  else
    resectionFinish svd (gather tracks i)
      (ransacRunE inl (gather tracks i).length 1000)

/-- `transform(aff_hom, Xprj, cams_pr)` from the code: apply the 4×4
homomorphism to the points, renormalize each column by its new homogeneous
scale, and postmultiply every camera by the inverse homomorphism. -/
def transform {m : ℕ} (aff_hom : Matrix (Fin 4) (Fin 4) ℝ)
    (Xprj : Matrix (Fin 4) (Fin m) ℝ) (cams_pr : List (Matrix (Fin 3) (Fin 4) ℝ)) :
    Matrix (Fin 4) (Fin m) ℝ × List (Matrix (Fin 3) (Fin 4) ℝ) :=
  (Matrix.of fun r j => (aff_hom * Xprj) r j / (aff_hom * Xprj) 3 j,
   cams_pr.map fun cam => cam * aff_hom⁻¹)

/-- Column `j` of a matrix of homogeneous points. -/
def colOf {m : ℕ} (X : Matrix (Fin 4) (Fin m) ℝ) (j : Fin m) : Fin 4 → ℝ :=
  fun r => X r j

/-- `np.flipud` on a 3×3 matrix. -/
def flipud (A : Matrix (Fin 3) (Fin 3) ℝ) : Matrix (Fin 3) (Fin 3) ℝ :=
  A.submatrix Fin.rev id

/-- `A[:, ::-1]` on a 3×3 matrix. -/
def fliplr (A : Matrix (Fin 3) (Fin 3) ℝ) : Matrix (Fin 3) (Fin 3) ℝ :=
  A.submatrix id Fin.rev

/-- The row-reversal permutation matrix. -/
def J3 : Matrix (Fin 3) (Fin 3) ℝ :=
  Matrix.of ![![0, 0, 1], ![0, 1, 0], ![1, 0, 0]]

/-- `P[:, :3]`. -/
def leftBlock (P : Matrix (Fin 3) (Fin 4) ℝ) : Matrix (Fin 3) (Fin 3) ℝ :=
  P.submatrix id (Fin.castLE (by norm_num))

/-- `P[:, 3]`. -/
def lastCol (P : Matrix (Fin 3) (Fin 4) ℝ) : Fin 3 → ℝ := fun i => P i 3

/-- `RQ_factorization` from the code, parametrized by the trusted QR
collaborator `qr` (numpy `np.linalg.qr`): flip rows, transpose, QR,
transpose back, flip, and reverse. -/
def RQ_factorization (qr : Matrix (Fin 3) (Fin 3) ℝ →
      Matrix (Fin 3) (Fin 3) ℝ × Matrix (Fin 3) (Fin 3) ℝ)
    (A : Matrix (Fin 3) (Fin 3) ℝ) :
    Matrix (Fin 3) (Fin 3) ℝ × Matrix (Fin 3) (Fin 3) ℝ :=
  let QR := qr (flipud A)ᵀ
  let R := flipud QR.2ᵀ
  let Q := QR.1ᵀ
  (fliplr R, flipud Q)

/-- `[R | t]` as a 3×4 matrix. -/
def augment (R : Matrix (Fin 3) (Fin 3) ℝ) (t : Fin 3 → ℝ) :
    Matrix (Fin 3) (Fin 4) ℝ :=
  Matrix.of fun i j => if h : (j : ℕ) < 3 then R i ⟨j, h⟩ else t i

/-- `KRt_from_P` from the code (`factorize`): RQ-factor the leading block,
make the intrinsic diagonal positive, solve for `t`, flip `(R, t)` jointly
if `det R < 0`, and rescale `K` so `K[2,2] = 1`. -/
def KRt_from_P (qr : Matrix (Fin 3) (Fin 3) ℝ →
      Matrix (Fin 3) (Fin 3) ℝ × Matrix (Fin 3) (Fin 3) ℝ)
    (P : Matrix (Fin 3) (Fin 4) ℝ) :
    Matrix (Fin 3) (Fin 3) ℝ × Matrix (Fin 3) (Fin 3) ℝ × (Fin 3 → ℝ) :=
  let KR := RQ_factorization qr (leftBlock P)
  let T := Matrix.diagonal fun i => Real.sign (KR.1 i i)
  let K := KR.1 * T
  let R := T * KR.2
  let t := K⁻¹ *ᵥ lastCol P
  let R2 := if R.det < 0 then -R else R
  let t2 := if R.det < 0 then -t else t
  ((K 2 2)⁻¹ • K, R2, t2)

/-- Strict upper-triangularity of entries below the diagonal. -/
def upperTriangular (M : Matrix (Fin 3) (Fin 3) ℝ) : Prop :=
  ∀ i j : Fin 3, j < i → M i j = 0

/-- The factorization contract claimed for `factorize`/`KRt_from_P`:
`K` upper-triangular with positive diagonal and `K[2,2] = 1`, `R` a proper
rotation, and `K @ [R|t]` equal to `P` up to a nonzero global scale. -/
def KRtSpec (P : Matrix (Fin 3) (Fin 4) ℝ)
    (KRt : Matrix (Fin 3) (Fin 3) ℝ × Matrix (Fin 3) (Fin 3) ℝ × (Fin 3 → ℝ)) :
    Prop :=
  upperTriangular KRt.1 ∧ (∀ i, 0 < KRt.1 i i) ∧ KRt.1 2 2 = 1 ∧
    KRt.2.1ᵀ * KRt.2.1 = 1 ∧ KRt.2.1.det = 1 ∧
    ∃ s : ℝ, s ≠ 0 ∧ KRt.1 * augment KRt.2.1 KRt.2.2 = s • P

/-- The scaling part of a 2D similarity. -/
def scale2 (s : ℝ) : Matrix (Fin 3) (Fin 3) ℝ :=
  Matrix.of ![![s, 0, 0], ![0, s, 0], ![0, 0, 1]]

/-- The translation part of a 2D similarity (homogeneous form). -/
def translate2 (a b : ℝ) : Matrix (Fin 3) (Fin 3) ℝ :=
  Matrix.of ![![1, 0, a], ![0, 1, b], ![0, 0, 1]]

/-- The scaling part of a 3D similarity. -/
def scale3 (s : ℝ) : Matrix (Fin 4) (Fin 4) ℝ :=
  Matrix.of ![![s, 0, 0, 0], ![0, s, 0, 0], ![0, 0, s, 0], ![0, 0, 0, 1]]

/-- The translation part of a 3D similarity (homogeneous form). -/
def translate3 (a b c : ℝ) : Matrix (Fin 4) (Fin 4) ℝ :=
  Matrix.of ![![1, 0, 0, a], ![0, 1, 0, b], ![0, 0, 1, c], ![0, 0, 0, 1]]

/-- Mean Euclidean distance from the origin of a list of homogeneous 2D
points (Euclidean conversion by `euclid`). -/
def meanDist2 (pts : List (Fin 3 → ℝ)) : ℝ :=
  (pts.map fun p => Real.sqrt ((euclid2 p 0) ^ 2 + (euclid2 p 1) ^ 2)).sum / pts.length

/-- A trivial SVD collaborator (concrete test data). -/
def svd0 : List (Fin 12 → ℝ) → Fin 12 → ℝ := fun _ _ => 0

/-- An inlier oracle that never reports inliers (concrete test data). -/
def inl0 : ℕ → List ℕ := fun _ => []

/-- An inlier oracle that reports the full six-element sample as inliers at
every iteration (concrete test data). -/
def inlAll6 : ℕ → List ℕ := fun _ => List.range 6

/-- A concrete 2D observation (test data). -/
def obsPt : Fin 2 → ℝ := fun _ => 0

/-- The conclusion of claim C7 for a `resection` call: the insufficient
inliers error is returned exactly when the best consensus found by the
RANSAC loop has fewer than 6 members, and otherwise the camera matrix
fitted on the best inlier set is returned. -/
def ResectionConsensusSpec (svd : List (Fin 12 → ℝ) → Fin 12 → ℝ)
    (inl : ℕ → List ℕ) (tracks : List Track) (i : ℕ) : Prop :=
  (resection svd inl tracks i = .error .insufficientInliers ↔
    (ransacRun inl (gather tracks i).length 1000).best.length < 6) ∧
  (6 ≤ (ransacRun inl (gather tracks i).length 1000).best.length →
    resection svd inl tracks i = .ok (camera_matrix svd
      (select ((gather tracks i).map Prod.fst) z4
        (ransacRun inl (gather tracks i).length 1000).best)
      (select (((gather tracks i).map Prod.snd).map homogenize) z3
        (ransacRun inl (gather tracks i).length 1000).best)))

/-- Constant all-ones homogeneous 3D point (concrete test data). -/
def onePt4 : Fin 4 → ℝ := fun _ => 1

/-- Constant all-ones homogeneous 2D point (concrete test data). -/
def onePt3 : Fin 3 → ℝ := fun _ => 1

/-- Seven 3D correspondences (concrete test data for `camera_matrix`). -/
def c1pts3 : List (Fin 4 → ℝ) := List.replicate 7 onePt4

/-- Seven 2D correspondences (concrete test data for `camera_matrix`). -/
def c1pts2 : List (Fin 3 → ℝ) := List.replicate 7 onePt3

/-- A track with a valid (nonzero-scale) 3D point and an observation in
every view (concrete test data for `resection`). -/
def trackW : Track := ⟨onePt4, fun _ => some obsPt⟩

/-- A single all-ones homogeneous 3D point column (concrete test data for
`transform`). -/
def X1 : Matrix (Fin 4) (Fin 1) ℝ := Matrix.of fun _ _ => 1

/-- The zero camera (concrete test data for `transform`). -/
def cam0 : Matrix (Fin 3) (Fin 4) ℝ := 0

/-- An SVD collaborator returning the twelfth coordinate vector (concrete
test data for `camera_matrix`). -/
def svdE11 : List (Fin 12 → ℝ) → Fin 12 → ℝ :=
  fun _ k => if (k : ℕ) = 11 then 1 else 0

/-- Six balanced 2D correspondences with unit homogeneous scale, zero
column means and unit flattened variance (concrete test data). -/
def w2pts : List (Fin 3 → ℝ) :=
  [![1, 1, 1], ![1, -1, 1], ![-1, 1, 1], ![-1, -1, 1], ![1, -1, 1], ![-1, 1, 1]]

/-- Six balanced 3D correspondences with unit homogeneous scale, zero
column means and unit flattened variance (concrete test data). -/
def w3pts : List (Fin 4 → ℝ) :=
  [![1, 1, 1, 1], ![-1, -1, -1, 1], ![1, 1, 1, 1], ![-1, -1, -1, 1],
   ![1, 1, 1, 1], ![-1, -1, -1, 1]]

/-- Two concrete homogeneous 2D points, `(0,0)` and `(2,0)` (test data for
`normalize2dpts`). -/
def c8pts : List (Fin 3 → ℝ) := [![0, 0, 1], ![2, 0, 1]]

/-- Two concrete homogeneous 3D points (test data for `normalize3dpts`). -/
def c8pts3 : List (Fin 4 → ℝ) := [![0, 0, 0, 1], ![2, 0, 0, 1]]

/-- The canonical camera `[I | 0]` (concrete test data for `KRt_from_P`). -/
def Pid : Matrix (Fin 3) (Fin 4) ℝ :=
  Matrix.of ![![1, 0, 0, 0], ![0, 1, 0, 0], ![0, 0, 1, 0]]

/-- A QR collaborator returning the reversal permutation and the identity
(concrete test data satisfying the QR contract at `(flipud I).T = J3`). -/
def qrJ : Matrix (Fin 3) (Fin 3) ℝ →
    Matrix (Fin 3) (Fin 3) ℝ × Matrix (Fin 3) (Fin 3) ℝ :=
  fun _ => (J3, 1)

/-- The amended normalization contract (claim C8): the returned transform
is the similarity scaling by `sqrt 2 / std-of-all-coordinates` and then
translating by minus the scaled centroid, the returned points are exactly
the input points mapped through it, and (for unit-scale inputs) the
transformed points have coordinate-wise mean zero — in both the 2D and 3D
variants. -/
def NormalizationSpec (pts2 : List (Fin 3 → ℝ)) (pts3 : List (Fin 4 → ℝ)) : Prop :=
  ((normalize2dpts pts2).2 =
      translate2 (-(Real.sqrt 2 / std2 pts2 * m2x pts2))
        (-(Real.sqrt 2 / std2 pts2 * m2y pts2)) * scale2 (Real.sqrt 2 / std2 pts2) ∧
    (normalize2dpts pts2).1 = pts2.map fun p => (normalize2dpts pts2).2 *ᵥ p) ∧
  (((normalize2dpts pts2).1.map fun p => p 0).sum / pts2.length = 0 ∧
    ((normalize2dpts pts2).1.map fun p => p 1).sum / pts2.length = 0) ∧
  ((normalize3dpts pts3).2 =
      translate3 (-(Real.sqrt 2 / std3 pts3 * m3x pts3))
        (-(Real.sqrt 2 / std3 pts3 * m3y pts3))
        (-(Real.sqrt 2 / std3 pts3 * m3z pts3)) * scale3 (Real.sqrt 2 / std3 pts3) ∧
    (normalize3dpts pts3).1 = pts3.map fun p => (normalize3dpts pts3).2 *ᵥ p) ∧
  (((normalize3dpts pts3).1.map fun p => p 0).sum / pts3.length = 0 ∧
    ((normalize3dpts pts3).1.map fun p => p 1).sum / pts3.length = 0 ∧
    ((normalize3dpts pts3).1.map fun p => p 2).sum / pts3.length = 0)

/-! ## Claim C10: the view index argument of `compute_proj_camera` is dead -/

/-- Claim C10: `compute_proj_camera(F, i)` never reads its second argument,
so any two view indices give the same camera matrix, matching the spec
interface `compute_proj_camera(F)`. -/
theorem claim_C10 (e : Fin 3 → ℝ) (F : Matrix (Fin 3) (Fin 3) ℝ) (i j : ℕ) :
    compute_proj_camera e F i = compute_proj_camera e F j := rfl

/-! ## Claim C3: structure of the synthesized second camera -/

/-- Claim C3: for a fundamental matrix `F` with left-null generator `e`
(the output of the modelled `nullspace(F.T)`), the camera returned by
`compute_proj_camera` has left 3×3 block `[e]_x @ F` and fourth column `e`,
where `[e]_x` satisfies `[e]_x v = e × v` for every 3-vector `v`. -/
theorem claim_C3 (e : Fin 3 → ℝ) (F : Matrix (Fin 3) (Fin 3) ℝ) (i : ℕ)
    (hnull : Fᵀ *ᵥ e = 0) (hne : e ≠ 0) :
    leftBlock (compute_proj_camera e F i) = hat_operator e * F ∧
      (∀ r, compute_proj_camera e F i r 3 = e r) ∧
      ∀ v : Fin 3 → ℝ, hat_operator e *ᵥ v = crossProduct e v := by
  refine ⟨?_, ?_, ?_⟩
  · ext r c
    have hc : ((Fin.castLE (by norm_num : (3 : ℕ) ≤ 4) c : Fin 4) : ℕ) < 3 := by
      simp only [Fin.coe_castLE]
      exact c.isLt
    simp only [leftBlock, compute_proj_camera, Matrix.submatrix_apply, Matrix.of_apply, id]
    rw [dif_pos hc]
    congr 1
  · intro r
    simp only [compute_proj_camera, Matrix.of_apply]
    rw [dif_neg (by decide)]
  · intro v
    funext r
    fin_cases r <;>
      simp [hat_operator, Matrix.mulVec, Matrix.dotProduct, Fin.sum_univ_three,
        cross_apply] <;> ring

/-- Witness for C3 at the concrete rank-2 fundamental matrix
`F = diag(1, 1, 0)` with left-null generator `e = (0, 0, 1)`. -/
theorem claim_C3_witness :
    ((Matrix.of ![![(1 : ℝ), 0, 0], ![0, 1, 0], ![0, 0, 0]])ᵀ *ᵥ ![0, 0, 1] = 0 ∧
        (![0, 0, 1] : Fin 3 → ℝ) ≠ 0) ∧
      (leftBlock (compute_proj_camera ![0, 0, 1]
          (Matrix.of ![![(1 : ℝ), 0, 0], ![0, 1, 0], ![0, 0, 0]]) 1) =
        hat_operator ![0, 0, 1] * Matrix.of ![![(1 : ℝ), 0, 0], ![0, 1, 0], ![0, 0, 0]] ∧
      (∀ r, compute_proj_camera ![0, 0, 1]
          (Matrix.of ![![(1 : ℝ), 0, 0], ![0, 1, 0], ![0, 0, 0]]) 1 r 3 = ![0, 0, 1] r) ∧
      ∀ v : Fin 3 → ℝ, hat_operator ![0, 0, 1] *ᵥ v =
        crossProduct (![0, 0, 1] : Fin 3 → ℝ) v) := by
  have h1 : (Matrix.of ![![(1 : ℝ), 0, 0], ![0, 1, 0], ![0, 0, 0]])ᵀ *ᵥ ![0, 0, 1] = 0 := by
    funext r
    fin_cases r <;>
      simp [Matrix.mulVec, Matrix.dotProduct, Fin.sum_univ_three, Matrix.transpose_apply,
        Matrix.vecHead, Matrix.vecTail]
  have h2 : (![0, 0, 1] : Fin 3 → ℝ) ≠ 0 := by
    intro h
    have := congrFun h 2
    norm_num at this
  exact ⟨⟨h1, h2⟩, claim_C3 ![0, 0, 1] _ 1 h1 h2⟩

/-! ## Claim C1: shape of the DLT coefficient matrix -/

/-- The DLT coefficient matrix built by `camera_matrix` always has exactly
`2 * 6 = 12` rows, whatever the number of supplied correspondences. -/
theorem dltMatrix_length (p3 : List (Fin 4 → ℝ)) (p2 : List (Fin 3 → ℝ)) :
    (dltMatrix p3 p2).length = 12 := rfl

/-- `List.getD` on a replicated list, inside the replicated range. -/
theorem getD_replicate {α : Type} (a d : α) :
    ∀ (n i : ℕ), i < n → (List.replicate n a).getD i d = a := by
  intro n
  induction n with
  | zero => omega
  | succ n ih =>
    intro i hi
    cases i with
    | zero => rfl
    | succ i => exact ih i (by omega)

/-- Claim C1, counterexample: a `camera_matrix` call with 7 correspondences
builds a DLT coefficient matrix with 12 rows, not `2 * 7 = 14` rows. -/
theorem claim_C1_counterexample :
    (dltMatrix (normalize3dpts c1pts3).1 (normalize2dpts c1pts2).1).length ≠ 2 * 7 := by
  rw [dltMatrix_length]
  norm_num

/-- Claim C1, amended: the DLT coefficient matrix built by `camera_matrix`
always has exactly 12 rows (two per correspondence for the first six
correspondences only), and it depends only on the first six normalized
correspondences: two inputs agreeing on indices `0..5` produce the same
coefficient matrix, so correspondences beyond the sixth contribute no DLT
rows (they enter the result only through the normalization transforms). -/
theorem claim_C1_amended (p3 q3 : List (Fin 4 → ℝ)) (p2 q2 : List (Fin 3 → ℝ))
    (h3 : ∀ i < 6, q3.getD i z4 = p3.getD i z4)
    (h2 : ∀ i < 6, q2.getD i z3 = p2.getD i z3) :
    (dltMatrix p3 p2).length = 12 ∧ dltMatrix p3 p2 = dltMatrix q3 q2 := by
  refine ⟨dltMatrix_length p3 p2, ?_⟩
  unfold dltMatrix
  refine List.flatMap_congr ?_
  intro i hi
  have hi6 : i < 6 := List.mem_range.mp hi
  rw [h3 i hi6, h2 i hi6]

/-- Witness for the amended C1 at seven-element concrete inputs truncated
to their first six correspondences. -/
theorem claim_C1_witness :
    (∀ i < 6, (List.replicate 6 onePt4).getD i z4 = c1pts3.getD i z4) ∧
      (∀ i < 6, (List.replicate 6 onePt3).getD i z3 = c1pts2.getD i z3) ∧
      ((dltMatrix c1pts3 c1pts2).length = 12 ∧
        dltMatrix c1pts3 c1pts2 = dltMatrix (List.replicate 6 onePt4) (List.replicate 6 onePt3)) := by
  have h3 : ∀ i < 6, (List.replicate 6 onePt4).getD i z4 = c1pts3.getD i z4 := by
    intro i hi
    rw [getD_replicate _ _ 6 i hi, c1pts3, getD_replicate _ _ 7 i (by omega)]
  have h2 : ∀ i < 6, (List.replicate 6 onePt3).getD i z3 = c1pts2.getD i z3 := by
    intro i hi
    rw [getD_replicate _ _ 6 i hi, c1pts2, getD_replicate _ _ 7 i (by omega)]
  exact ⟨h3, h2, claim_C1_amended c1pts3 _ c1pts2 _ h3 h2⟩

/-! ## Claims C6, C2, C7: the adaptive RANSAC loop of `resection` -/

/-- Each budget update can only shrink the budget. -/
theorem ransacUpdate_maxIt_le (n : ℕ) (s : RState) (inliers : List ℕ) :
    (ransacUpdate n s inliers).maxIt ≤ s.maxIt :=
  min_le_left _ _

/-- The budget never exceeds its initial value 1000. -/
theorem ransacRun_maxIt_le (inl : ℕ → List ℕ) (n : ℕ) :
    ∀ k, (ransacRun inl n k).maxIt ≤ 1000 := by
  intro k
  induction k with
  | zero => exact le_rfl
  | succ k ih =>
    rw [ransacRun, ransacStepFn]
    split
    · exact (ransacUpdate_maxIt_le _ _ _).trans ih
    · exact ih

/-- The iteration counter never exceeds 1000. -/
theorem ransacRun_it_le (inl : ℕ → List ℕ) (n : ℕ) :
    ∀ k, (ransacRun inl n k).it ≤ 1000 := by
  intro k
  induction k with
  | zero => exact Nat.zero_le _
  | succ k ih =>
    rw [ransacRun, ransacStepFn]
    split
    · next h =>
      have hlt : ((ransacRun inl n k).it : ℝ) < 1000 :=
        lt_of_lt_of_le h (ransacRun_maxIt_le inl n k)
      have h1000 : (ransacRun inl n k).it < 1000 := by exact_mod_cast hlt
      show (ransacUpdate n (ransacRun inl n k) (inl (ransacRun inl n k).it)).it ≤ 1000
      simp only [ransacUpdate]
      omega
    · exact ih

/-- Once the loop makes no progress it is stuck forever. -/
theorem ransacRun_fix (inl : ℕ → List ℕ) (n k : ℕ)
    (h : ransacRun inl n (k + 1) = ransacRun inl n k) :
    ∀ m, ransacRun inl n (k + m) = ransacRun inl n k := by
  intro m
  induction m with
  | zero => rfl
  | succ m ih =>
    have : ransacRun inl n (k + m + 1) = ransacStepFn inl n (ransacRun inl n (k + m)) := rfl
    rw [show k + (m + 1) = k + m + 1 by omega, this, ih]
    exact h

/-- Either the counter has kept pace with the number of guard checks, or
the loop has already stopped. -/
theorem ransacRun_it_or_fix (inl : ℕ → List ℕ) (n : ℕ) :
    ∀ k, (ransacRun inl n k).it = k ∨ ransacRun inl n (k + 1) = ransacRun inl n k := by
  intro k
  induction k with
  | zero => exact Or.inl rfl
  | succ k ih =>
    rcases ih with hit | hfix
    · by_cases hg : ((ransacRun inl n k).it : ℝ) < (ransacRun inl n k).maxIt
      · left
        rw [ransacRun, ransacStepFn, if_pos hg]
        simp [ransacUpdate, hit]
      · right
        have hstop : ransacRun inl n (k + 1) = ransacRun inl n k := by
          rw [ransacRun, ransacStepFn, if_neg hg]
        calc ransacRun inl n (k + 1 + 1)
            = ransacStepFn inl n (ransacRun inl n (k + 1)) := rfl
          _ = ransacStepFn inl n (ransacRun inl n k) := by rw [hstop]
          _ = ransacRun inl n (k + 1) := rfl
    · right
      calc ransacRun inl n (k + 1 + 1)
          = ransacStepFn inl n (ransacRun inl n (k + 1)) := rfl
        _ = ransacStepFn inl n (ransacRun inl n k) := by rw [hfix]
        _ = ransacRun inl n (k + 1) := rfl

/-- After 1000 guard checks the loop state never changes again. -/
theorem ransacRun_stable (inl : ℕ → List ℕ) (n : ℕ) :
    ∀ m, ransacRun inl n (1000 + m) = ransacRun inl n 1000 := by
  rcases ransacRun_it_or_fix inl n 1000 with hit | hfix
  · have hstop : ransacRun inl n (1000 + 1) = ransacRun inl n 1000 := by
      have hng : ¬ (((ransacRun inl n 1000).it : ℝ) < (ransacRun inl n 1000).maxIt) := by
        rw [hit]
        exact not_lt.mpr (by exact_mod_cast ransacRun_maxIt_le inl n 1000)
      rw [ransacRun, ransacStepFn, if_neg hng]
    exact ransacRun_fix inl n 1000 hstop
  · exact ransacRun_fix inl n 1000 hfix

/-- Claim C6: across the RANSAC loop of `resection`, the iteration budget
`max_it` is non-increasing (each update takes the minimum of the current
budget and the clamped `log(1-p)/log(pNoOutliers)` estimate, as in
`ransacUpdate`), and the loop always terminates after at most 1000
iterations, whatever inlier sets the random samples produce: the state is
frozen from guard check 1000 on, and the iteration counter never passes
1000. -/
theorem claim_C6 (inl : ℕ → List ℕ) (n : ℕ) :
    (∀ k, (ransacRun inl n (k + 1)).maxIt ≤ (ransacRun inl n k).maxIt) ∧
      (∀ m, ransacRun inl n (1000 + m) = ransacRun inl n 1000) ∧
      ∀ k, (ransacRun inl n k).it ≤ 1000 := by
  refine ⟨?_, ransacRun_stable inl n, ransacRun_it_le inl n⟩
  intro k
  rw [ransacRun, ransacStepFn]
  split
  · exact ransacUpdate_maxIt_le _ _ _
  · exact le_rfl

/-- With fewer than 6 correspondences, the first loop iteration fails at
the sampling step, and the failure propagates. -/
theorem ransacRunE_err (inl : ℕ → List ℕ) {n : ℕ} (h : n < 6) :
    ∀ k, ransacRunE inl n (k + 1) = .error .samplingFailure := by
  intro k
  induction k with
  | zero =>
    have h1 : ransacRunE inl n 1 = ransacStepE inl n (Except.ok ransacInit) := rfl
    rw [h1]
    show (if ((ransacInit.it : ℝ) < ransacInit.maxIt) then
        if n < 6 then Except.error ResectionError.samplingFailure
        else Except.ok (ransacUpdate n ransacInit (inl ransacInit.it))
      else Except.ok ransacInit) = Except.error ResectionError.samplingFailure
    have hg : ((ransacInit.it : ℝ) < ransacInit.maxIt) := by
      show ((0 : ℕ) : ℝ) < 1000
      norm_num
    rw [if_pos hg, if_pos h]
  | succ k ih =>
    have h1 : ransacRunE inl n (k + 1 + 1) = ransacStepE inl n (ransacRunE inl n (k + 1)) := rfl
    rw [h1, ih]
    rfl

/-- With at least 6 correspondences the sampling step never fails, and the
error-aware loop computes exactly the plain loop state. -/
theorem ransacRunE_ok (inl : ℕ → List ℕ) {n : ℕ} (h : ¬ n < 6) :
    ∀ k, ransacRunE inl n k = .ok (ransacRun inl n k) := by
  intro k
  induction k with
  | zero => rfl
  | succ k ih =>
    have h1 : ransacRunE inl n (k + 1) = ransacStepE inl n (ransacRunE inl n k) := rfl
    rw [h1, ih]
    show (if ((ransacRun inl n k).it : ℝ) < (ransacRun inl n k).maxIt then
        if n < 6 then Except.error ResectionError.samplingFailure
        else Except.ok (ransacUpdate n (ransacRun inl n k) (inl (ransacRun inl n k).it))
      else Except.ok (ransacRun inl n k)) =
      Except.ok (ransacStepFn inl n (ransacRun inl n k))
    rw [ransacStepFn]
    by_cases hg : ((ransacRun inl n k).it : ℝ) < (ransacRun inl n k).maxIt
    · rw [if_pos hg, if_pos hg, if_neg h]
    · rw [if_neg hg, if_neg hg]

/-- Shared helper: with at least one but fewer than 6 usable
correspondences, `resection` fails with the sampling error. -/
theorem resection_sampling_err (svd : List (Fin 12 → ℝ) → Fin 12 → ℝ)
    (inl : ℕ → List ℕ) (tracks : List Track) (i : ℕ)
    (h : (gather tracks i).length < 6) (h0 : (gather tracks i).length ≠ 0) :
    resection svd inl tracks i = .error .samplingFailure := by
  have hloop : ransacRunE inl (gather tracks i).length 1000 =
      Except.error ResectionError.samplingFailure := ransacRunE_err inl h 999
  unfold resection
  rw [if_neg h0, hloop]
  rfl

/-- Shared helper: with no usable correspondences at all, `resection`
fails already while homogenizing the empty observation array. -/
theorem resection_concat_err (svd : List (Fin 12 → ℝ) → Fin 12 → ℝ)
    (inl : ℕ → List ℕ) (tracks : List Track) (i : ℕ)
    (h0 : (gather tracks i).length = 0) :
    resection svd inl tracks i = .error .concatenateFailure := by
  unfold resection
  rw [if_pos h0]

/-- The usable-track test accepts `trackW` in every view. -/
theorem usable_trackW (i : ℕ) : usable i trackW = some (onePt4, obsPt) := by
  rw [usable, if_pos]
  · rfl
  · show onePt4 3 ≠ 0
    rw [onePt4]
    norm_num

/-- Gathering from replicated copies of `trackW` yields one correspondence
per copy. -/
theorem gather_replicate (i : ℕ) :
    ∀ n, gather (List.replicate n trackW) i =
      List.replicate n (onePt4, obsPt) := by
  intro n
  induction n with
  | zero => rfl
  | succ n ih =>
    rw [List.replicate_succ, gather, List.filterMap_cons, usable_trackW]
    rw [gather] at ih
    rw [ih, List.replicate_succ]

/-- Claim C2, counterexample: a `resection` call with a single usable track
(one 3D–2D correspondence, so fewer than 6) fails with the error raised by
the 6-from-n random sampling step, which is not an insufficient
correspondences error. -/
theorem claim_C2_counterexample :
    resection svd0 inl0 [trackW] 0 = .error .samplingFailure ∧
      (Except.error ResectionError.samplingFailure :
          Except ResectionError (Matrix (Fin 3) (Fin 4) ℝ)) ≠
        Except.error ResectionError.insufficientCorrespondences := by
  have hlen : gather [trackW] 0 = [(onePt4, obsPt)] := gather_replicate 0 1
  constructor
  · refine resection_sampling_err svd0 inl0 [trackW] 0 ?_ ?_
    · rw [hlen]
      norm_num
    · rw [hlen]
      norm_num
  · intro h
    simp only [Except.error.injEq] at h
    exact ResectionError.noConfusion h

/-- Claim C2, amended: whenever fewer than 6 tracks both have a 3D point
with nonzero homogeneous scale and have an observation in view `i`,
`resection` does not return a camera matrix — but not through a dedicated
insufficient correspondences error: with at least one usable
correspondence it fails with the error raised by the random sampling step
(drawing 6 distinct indices from a population smaller than 6) in the first
loop iteration, and with none at all it fails even earlier, when `homog`
concatenates along axis 1 of the empty 1-D observation array, before the
RANSAC loop starts. -/
theorem claim_C2_amended (svd : List (Fin 12 → ℝ) → Fin 12 → ℝ)
    (inl : ℕ → List ℕ) (tracks : List Track) (i : ℕ)
    (h : (gather tracks i).length < 6) :
    resection svd inl tracks i =
      (if (gather tracks i).length = 0 then Except.error ResectionError.concatenateFailure
      else Except.error ResectionError.samplingFailure) := by
  by_cases h0 : (gather tracks i).length = 0
  · rw [if_pos h0]
    exact resection_concat_err svd inl tracks i h0
  · rw [if_neg h0]
    exact resection_sampling_err svd inl tracks i h h0

/-- Witness for the amended C2 at a concrete one-track input. -/
theorem claim_C2_witness :
    (gather [trackW] 0).length < 6 ∧
      resection svd0 inl0 [trackW] 0 =
        (if (gather [trackW] 0).length = 0 then
          Except.error ResectionError.concatenateFailure
        else Except.error ResectionError.samplingFailure) := by
  have hlen : gather [trackW] 0 = [(onePt4, obsPt)] := gather_replicate 0 1
  have h : (gather [trackW] 0).length < 6 := by
    rw [hlen]
    norm_num
  exact ⟨h, claim_C2_amended svd0 inl0 [trackW] 0 h⟩

/-- Claim C7: when the RANSAC loop completes (at least 6 usable
correspondences, so no sampling failure), `resection` fails with the
insufficient inliers error exactly when the best inlier set found has
fewer than 6 members, and otherwise returns the camera matrix estimated
from the best inlier correspondences. -/
theorem claim_C7 (svd : List (Fin 12 → ℝ) → Fin 12 → ℝ) (inl : ℕ → List ℕ)
    (tracks : List Track) (i : ℕ) (h6 : 6 ≤ (gather tracks i).length) :
    ResectionConsensusSpec svd inl tracks i := by
  have hE := ransacRunE_ok inl (not_lt.mpr h6) 1000
  have hres : resection svd inl tracks i =
      (if (ransacRun inl (gather tracks i).length 1000).best.length < 6 then
        .error .insufficientInliers
      else .ok (camera_matrix svd
        (select ((gather tracks i).map Prod.fst) z4
          (ransacRun inl (gather tracks i).length 1000).best)
        (select (((gather tracks i).map Prod.snd).map homogenize) z3
          (ransacRun inl (gather tracks i).length 1000).best))) := by
    have h0 : (gather tracks i).length ≠ 0 := by omega
    unfold resection
    rw [if_neg h0, hE]
    rfl
  constructor
  · constructor
    · intro heq
      by_contra hge
      rw [hres, if_neg hge] at heq
      exact Except.noConfusion heq
    · intro hlt
      rw [hres, if_pos hlt]
  · intro hge
    rw [hres, if_neg (not_lt.mpr hge)]

/-- Witness for C7 at six concrete usable tracks. -/
theorem claim_C7_witness :
    6 ≤ (gather (List.replicate 6 trackW) 0).length ∧
      ResectionConsensusSpec svd0 inlAll6 (List.replicate 6 trackW) 0 := by
  have h6 : 6 ≤ (gather (List.replicate 6 trackW) 0).length := by
    rw [gather_replicate 0 6]
    norm_num
  exact ⟨h6, claim_C7 svd0 inlAll6 (List.replicate 6 trackW) 0 h6⟩

/-! ## Claim C5: the affine upgrade preserves projections up to scale -/

/-- Claim C5: for a nonsingular homomorphism `H`, every camera index `k`
and every point column `j` whose image under `H` has nonzero homogeneous
scale, projecting the transformed point through the transformed camera
yields a nonzero scalar multiple of projecting the original point through
the original camera. -/
theorem claim_C5 {m : ℕ} (H : Matrix (Fin 4) (Fin 4) ℝ) (X : Matrix (Fin 4) (Fin m) ℝ)
    (cams : List (Matrix (Fin 3) (Fin 4) ℝ)) (k : ℕ) (j : Fin m)
    (hdet : IsUnit H.det) (hk : k < cams.length) (hj : (H * X) 3 j ≠ 0) :
    ∃ c : ℝ, c ≠ 0 ∧
      ((transform H X cams).2.getD k 0) *ᵥ colOf (transform H X cams).1 j =
        c • ((cams.getD k 0) *ᵥ colOf X j) := by
  refine ⟨((H * X) 3 j)⁻¹, inv_ne_zero hj, ?_⟩
  have hcam : (transform H X cams).2.getD k 0 = (cams.getD k 0) * H⁻¹ := by
    show (cams.map fun cam => cam * H⁻¹).getD k 0 = (cams.getD k 0) * H⁻¹
    rw [List.getD_eq_getElem?_getD, List.getElem?_map, List.getElem?_eq_getElem hk,
      List.getD_eq_getElem?_getD, List.getElem?_eq_getElem hk]
    rfl
  have hcol : colOf (transform H X cams).1 j = ((H * X) 3 j)⁻¹ • colOf (H * X) j := by
    funext r
    show (H * X) r j / (H * X) 3 j = _
    rw [Pi.smul_apply, colOf, smul_eq_mul, div_eq_inv_mul]
  have hHX : colOf (H * X) j = H *ᵥ colOf X j := by
    funext r
    simp [colOf, Matrix.mul_apply, Matrix.mulVec, Matrix.dotProduct]
  rw [hcam, hcol, hHX, Matrix.mulVec_smul, Matrix.mulVec_mulVec,
    Matrix.mul_assoc, Matrix.nonsing_inv_mul H hdet, Matrix.mul_one]

/-- Witness for C5 at `H = 1` with a single all-ones point column and the
zero camera. -/
theorem claim_C5_witness :
    (IsUnit (1 : Matrix (Fin 4) (Fin 4) ℝ).det ∧ 0 < [cam0].length ∧
        ((1 : Matrix (Fin 4) (Fin 4) ℝ) * X1) 3 0 ≠ 0) ∧
      ∃ c : ℝ, c ≠ 0 ∧
        ((transform 1 X1 [cam0]).2.getD 0 0) *ᵥ colOf (transform 1 X1 [cam0]).1 0 =
          c • (([cam0].getD 0 0) *ᵥ colOf X1 0) := by
  have h1 : IsUnit (1 : Matrix (Fin 4) (Fin 4) ℝ).det := by simp
  have h2 : 0 < [cam0].length := by norm_num
  have h3 : ((1 : Matrix (Fin 4) (Fin 4) ℝ) * X1) 3 0 ≠ 0 := by
    rw [Matrix.one_mul]
    show (1 : ℝ) ≠ 0
    norm_num
  exact ⟨⟨h1, h2, h3⟩, claim_C5 1 X1 [cam0] 0 0 h1 h2 h3⟩

/-! ## Claim C9: denormalization and final scale of `camera_matrix` -/

/-- Claim C9: every `camera_matrix` result is the denormalized matrix
`T2.T @ P_normalized @ T1` divided by its bottom-right entry, and whenever
that entry is nonzero (the only situation numpy divides meaningfully — a
zero entry produces a NaN matrix, not a successful result) the returned
camera matrix has bottom-right entry exactly 1. -/
theorem claim_C9 (svd : List (Fin 12 → ℝ) → Fin 12 → ℝ)
    (p3 : List (Fin 4 → ℝ)) (p2 : List (Fin 3 → ℝ))
    (h : denormP svd p3 p2 2 3 ≠ 0) :
    camera_matrix svd p3 p2 = (denormP svd p3 p2 2 3)⁻¹ • denormP svd p3 p2 ∧
      camera_matrix svd p3 p2 2 3 = 1 := by
  refine ⟨rfl, ?_⟩
  show ((denormP svd p3 p2 2 3)⁻¹ • denormP svd p3 p2) 2 3 = 1
  rw [Matrix.smul_apply, smul_eq_mul, inv_mul_cancel₀ h]

/-- Witness for C9 at concrete balanced correspondences and an SVD output
whose denormalized bottom-right entry is 1. -/
theorem claim_C9_witness :
    denormP svdE11 w3pts w2pts 2 3 ≠ 0 ∧
      (camera_matrix svdE11 w3pts w2pts =
        (denormP svdE11 w3pts w2pts 2 3)⁻¹ • denormP svdE11 w3pts w2pts ∧
      camera_matrix svdE11 w3pts w2pts 2 3 = 1) := by
  have he : denormP svdE11 w3pts w2pts 2 3 = 1 := by
    simp [denormP, Matrix.mul_apply, Fin.sum_univ_three, Fin.sum_univ_four,
      reshape34, svdE11, normalize2dpts, normalize3dpts, normT2, normT3,
      Matrix.transpose_apply]
    norm_num [Matrix.vecHead, Matrix.vecTail, Matrix.transpose_apply, Function.comp]
    rw [show ((3 : Fin 4) : ℕ) = 3 from rfl]
    norm_num
  have h : denormP svdE11 w3pts w2pts 2 3 ≠ 0 := by
    rw [he]
    norm_num
  exact ⟨h, claim_C9 svdE11 w3pts w2pts h⟩

/-! ## Claim C8: point normalization -/

/-- Sum of an affine image of a list. -/
theorem list_sum_affine {α : Type} (l : List α) (f : α → ℝ) (a b : ℝ) :
    (l.map fun x => a * f x + b).sum = a * (l.map f).sum + l.length * b := by
  induction l with
  | nil => simp
  | cons x xs ih =>
    simp only [List.map_cons, List.sum_cons, ih, List.length_cons]
    push_cast
    ring

/-- Centering a list by `a` times its mean gives sum zero. -/
theorem mean_zero_helper {α : Type} (l : List α) (f : α → ℝ) (a : ℝ) (hne : l ≠ []) :
    (l.map fun x => a * f x + -(a * ((l.map f).sum / l.length))).sum / l.length = 0 := by
  have hlen : (l.length : ℝ) ≠ 0 := by
    have : l.length ≠ 0 := fun h => hne (List.length_eq_zero.mp h)
    exact_mod_cast this
  rw [list_sum_affine]
  field_simp
  ring

/-- Claim C8, counterexample: for the homogeneous point set
`{(0,0), (2,0)}` (nonzero coordinate standard deviation), the mean
Euclidean distance from the origin of the points returned by
`normalize2dpts` is not `sqrt 2`: the code computes the scale from the
flattened standard deviation of all coordinate values, not from the mean
distance to the centroid. -/
theorem claim_C8_counterexample :
    meanDist2 (normalize2dpts c8pts).1 ≠ Real.sqrt 2 := by
  have hstd : std2 c8pts = Real.sqrt (3 / 4) := by
    simp only [std2, c8pts, List.map_cons, List.map_nil, List.sum_cons, List.sum_nil,
      List.length_cons, List.length_nil]
    norm_num
  have h34pos : (0 : ℝ) < Real.sqrt (3 / 4) := Real.sqrt_pos.mpr (by norm_num)
  have h2pos : (0 : ℝ) < Real.sqrt 2 := Real.sqrt_pos.mpr (by norm_num)
  set S : ℝ := Real.sqrt 2 / Real.sqrt (3 / 4) with hSdef
  have hSpos : 0 < S := div_pos h2pos h34pos
  have hmx : m2x c8pts = 1 := by
    simp only [m2x, c8pts, List.map_cons, List.map_nil, List.sum_cons, List.sum_nil,
      List.length_cons, List.length_nil]
    norm_num
  have hmy : m2y c8pts = 0 := by
    simp only [m2y, c8pts, List.map_cons, List.map_nil, List.sum_cons, List.sum_nil,
      List.length_cons, List.length_nil]
    norm_num
  have hT : normT2 [![0, 0, 1], ![2, 0, 1]] = Matrix.of
      ![![S, 0, -S * 1], ![0, S, -S * 0], ![0, 0, 1]] := by
    rw [show ([![0, 0, 1], ![2, 0, 1]] : List (Fin 3 → ℝ)) = c8pts from rfl,
      normT2, hstd, hmx, hmy]
  have hp1 : (Matrix.of ![![S, 0, -S * 1], ![0, S, -S * 0], ![0, 0, 1]]) *ᵥ
      (![0, 0, 1] : Fin 3 → ℝ) = ![-S, 0, 1] := by
    funext r
    fin_cases r <;>
      simp [Matrix.mulVec, Matrix.dotProduct, Fin.sum_univ_three] <;> ring
  have hp2 : (Matrix.of ![![S, 0, -S * 1], ![0, S, -S * 0], ![0, 0, 1]]) *ᵥ
      (![2, 0, 1] : Fin 3 → ℝ) = ![S, 0, 1] := by
    funext r
    fin_cases r <;>
      simp [Matrix.mulVec, Matrix.dotProduct, Fin.sum_univ_three] <;> ring
  have he1 : Real.sqrt ((euclid2 ![-S, 0, 1] 0) ^ 2 + (euclid2 ![-S, 0, 1] 1) ^ 2) = S := by
    show Real.sqrt ((-S / 1) ^ 2 + ((0 : ℝ) / 1) ^ 2) = S
    rw [div_one, div_one, neg_sq]
    norm_num
    exact Real.sqrt_sq hSpos.le
  have he2 : Real.sqrt ((euclid2 ![S, 0, 1] 0) ^ 2 + (euclid2 ![S, 0, 1] 1) ^ 2) = S := by
    show Real.sqrt ((S / 1) ^ 2 + ((0 : ℝ) / 1) ^ 2) = S
    rw [div_one, div_one]
    norm_num
    exact Real.sqrt_sq hSpos.le
  have hmd : meanDist2 (normalize2dpts c8pts).1 = S := by
    simp only [normalize2dpts, meanDist2, c8pts]
    rw [hT]
    simp only [List.map_cons, List.map_nil, hp1, hp2, List.sum_cons, List.sum_nil,
      List.length_cons, List.length_nil, he1, he2]
    norm_num
  rw [hmd]
  intro h
  have h34 : Real.sqrt (3 / 4) ≠ 1 := by
    rw [Ne, Real.sqrt_eq_one]
    norm_num
  rw [hSdef, div_eq_iff (ne_of_gt h34pos)] at h
  have h1 : Real.sqrt 2 * 1 = Real.sqrt 2 * Real.sqrt (3 / 4) := by
    rw [mul_one]
    exact h
  exact h34 (mul_left_cancel₀ (ne_of_gt h2pos) h1).symm

/-- Claim C8, amended: the returned transform is the similarity that
scales by `s = sqrt 2 / std-of-all-coordinate-values` and then translates
by minus the scaled centroid, the returned points are the inputs mapped
through it, and for unit-scale inputs the transformed points have
coordinate-wise mean 0 (2D and 3D variants alike); the claimed mean
Euclidean distance `sqrt 2` does not hold (see the counterexample), since
the flattened standard deviation is not the mean distance to the
centroid. -/
theorem claim_C8_amended (pts2 : List (Fin 3 → ℝ)) (pts3 : List (Fin 4 → ℝ))
    (h2ne : pts2 ≠ []) (h3ne : pts3 ≠ [])
    (hw2 : ∀ p ∈ pts2, p 2 = 1) (hw3 : ∀ p ∈ pts3, p 3 = 1) :
    NormalizationSpec pts2 pts3 := by
  refine ⟨⟨?_, rfl⟩, ⟨?_, ?_⟩, ⟨?_, rfl⟩, ?_, ?_, ?_⟩
  · ext i j
    fin_cases i <;> fin_cases j <;>
      simp [normT2, normalize2dpts, translate2, scale2, Matrix.mul_apply,
        Fin.sum_univ_three, Matrix.vecHead, Matrix.vecTail] <;> try ring
  · have key : ((normalize2dpts pts2).1.map fun p => p 0) =
        pts2.map fun p => (Real.sqrt 2 / std2 pts2) * p 0 +
          -(Real.sqrt 2 / std2 pts2 * ((pts2.map fun p => p 0).sum / pts2.length)) := by
      show ((pts2.map fun p => normT2 pts2 *ᵥ p).map fun p => p 0) = _
      rw [List.map_map]
      refine List.map_congr_left ?_
      intro p hp
      have hw := hw2 p hp
      simp [Function.comp, normT2, Matrix.mulVec, Matrix.dotProduct, Fin.sum_univ_three,
        hw, m2x]
      try ring
    rw [key]
    exact mean_zero_helper pts2 (fun p => p 0) _ h2ne
  · have key : ((normalize2dpts pts2).1.map fun p => p 1) =
        pts2.map fun p => (Real.sqrt 2 / std2 pts2) * p 1 +
          -(Real.sqrt 2 / std2 pts2 * ((pts2.map fun p => p 1).sum / pts2.length)) := by
      show ((pts2.map fun p => normT2 pts2 *ᵥ p).map fun p => p 1) = _
      rw [List.map_map]
      refine List.map_congr_left ?_
      intro p hp
      have hw := hw2 p hp
      simp [Function.comp, normT2, Matrix.mulVec, Matrix.dotProduct, Fin.sum_univ_three,
        hw, m2y]
      try ring
    rw [key]
    exact mean_zero_helper pts2 (fun p => p 1) _ h2ne
  · ext i j
    fin_cases i <;> fin_cases j <;>
      simp [normT3, normalize3dpts, translate3, scale3, Matrix.mul_apply,
        Fin.sum_univ_four, Matrix.vecHead, Matrix.vecTail] <;> try ring
  · have key : ((normalize3dpts pts3).1.map fun p => p 0) =
        pts3.map fun p => (Real.sqrt 2 / std3 pts3) * p 0 +
          -(Real.sqrt 2 / std3 pts3 * ((pts3.map fun p => p 0).sum / pts3.length)) := by
      show ((pts3.map fun p => normT3 pts3 *ᵥ p).map fun p => p 0) = _
      rw [List.map_map]
      refine List.map_congr_left ?_
      intro p hp
      have hw := hw3 p hp
      simp [Function.comp, normT3, Matrix.mulVec, Matrix.dotProduct, Fin.sum_univ_four,
        hw, m3x]
      try ring
    rw [key]
    exact mean_zero_helper pts3 (fun p => p 0) _ h3ne
  · have key : ((normalize3dpts pts3).1.map fun p => p 1) =
        pts3.map fun p => (Real.sqrt 2 / std3 pts3) * p 1 +
          -(Real.sqrt 2 / std3 pts3 * ((pts3.map fun p => p 1).sum / pts3.length)) := by
      show ((pts3.map fun p => normT3 pts3 *ᵥ p).map fun p => p 1) = _
      rw [List.map_map]
      refine List.map_congr_left ?_
      intro p hp
      have hw := hw3 p hp
      simp [Function.comp, normT3, Matrix.mulVec, Matrix.dotProduct, Fin.sum_univ_four,
        hw, m3y]
      try ring
    rw [key]
    exact mean_zero_helper pts3 (fun p => p 1) _ h3ne
  · have key : ((normalize3dpts pts3).1.map fun p => p 2) =
        pts3.map fun p => (Real.sqrt 2 / std3 pts3) * p 2 +
          -(Real.sqrt 2 / std3 pts3 * ((pts3.map fun p => p 2).sum / pts3.length)) := by
      show ((pts3.map fun p => normT3 pts3 *ᵥ p).map fun p => p 2) = _
      rw [List.map_map]
      refine List.map_congr_left ?_
      intro p hp
      have hw := hw3 p hp
      simp [Function.comp, normT3, Matrix.mulVec, Matrix.dotProduct, Fin.sum_univ_four,
        hw, m3z]
      try ring
    rw [key]
    exact mean_zero_helper pts3 (fun p => p 2) _ h3ne

/-- Witness for the amended C8 at concrete unit-scale point sets. -/
theorem claim_C8_witness :
    (c8pts ≠ [] ∧ c8pts3 ≠ [] ∧ (∀ p ∈ c8pts, p 2 = 1) ∧
        (∀ p ∈ c8pts3, p 3 = 1)) ∧
      NormalizationSpec c8pts c8pts3 := by
  have h2ne : c8pts ≠ [] := by simp [c8pts]
  have h3ne : c8pts3 ≠ [] := by simp [c8pts3]
  have hw2 : ∀ p ∈ c8pts, p 2 = 1 := by
    intro p hp
    simp only [c8pts, List.mem_cons, List.not_mem_nil, or_false] at hp
    rcases hp with h | h <;> subst h <;> norm_num
  have hw3 : ∀ p ∈ c8pts3, p 3 = 1 := by
    intro p hp
    simp only [c8pts3, List.mem_cons, List.not_mem_nil, or_false] at hp
    rcases hp with h | h <;> subst h <;> norm_num
  exact ⟨⟨h2ne, h3ne, hw2, hw3⟩, claim_C8_amended c8pts c8pts3 h2ne h3ne hw2 hw3⟩

/-! ## Claim C4: camera factorization -/

/-- `np.flipud` is left multiplication by the reversal permutation. -/
theorem flipud_eq (A : Matrix (Fin 3) (Fin 3) ℝ) : flipud A = J3 * A := by
  have h0 : Fin.rev (0 : Fin 3) = 2 := by decide
  have h1 : Fin.rev (1 : Fin 3) = 1 := by decide
  have h2 : Fin.rev (2 : Fin 3) = 0 := by decide
  ext i j
  fin_cases i <;>
    simp [flipud, J3, Matrix.mul_apply, Fin.sum_univ_three, Matrix.submatrix_apply,
      h0, h1, h2, Matrix.vecHead, Matrix.vecTail]

/-- Column reversal is right multiplication by the reversal permutation. -/
theorem fliplr_eq (A : Matrix (Fin 3) (Fin 3) ℝ) : fliplr A = A * J3 := by
  have h0 : Fin.rev (0 : Fin 3) = 2 := by decide
  have h1 : Fin.rev (1 : Fin 3) = 1 := by decide
  have h2 : Fin.rev (2 : Fin 3) = 0 := by decide
  ext i j
  fin_cases j <;>
    simp [fliplr, J3, Matrix.mul_apply, Fin.sum_univ_three, Matrix.submatrix_apply,
      h0, h1, h2, Matrix.vecHead, Matrix.vecTail]

/-- The reversal permutation is an involution. -/
theorem J3_mul_J3 : J3 * J3 = 1 := by
  ext i j
  fin_cases i <;> fin_cases j <;>
    simp [J3, Matrix.mul_apply, Fin.sum_univ_three, Matrix.one_apply,
      Matrix.vecHead, Matrix.vecTail]

/-- The reversal permutation is symmetric. -/
theorem J3_transpose : J3ᵀ = J3 := by
  ext i j
  fin_cases i <;> fin_cases j <;>
    simp [J3, Matrix.transpose_apply, Matrix.vecHead, Matrix.vecTail]

/-- Multiplying `[R | t]` on the left acts blockwise. -/
theorem mul_augment (M R : Matrix (Fin 3) (Fin 3) ℝ) (t : Fin 3 → ℝ) :
    M * augment R t = augment (M * R) (M *ᵥ t) := by
  ext i j
  by_cases h : (j : ℕ) < 3
  · simp only [augment, Matrix.mul_apply, Matrix.of_apply, dif_pos h]
  · simp only [augment, Matrix.mul_apply, Matrix.of_apply, dif_neg h,
      Matrix.mulVec, Matrix.dotProduct]

/-- Scaling `[R | t]` acts blockwise. -/
theorem augment_smul (c : ℝ) (R : Matrix (Fin 3) (Fin 3) ℝ) (t : Fin 3 → ℝ) :
    augment (c • R) (c • t) = c • augment R t := by
  ext i j
  by_cases h : (j : ℕ) < 3
  · simp only [augment, Matrix.of_apply, dif_pos h, Matrix.smul_apply, Pi.smul_apply]
  · simp only [augment, Matrix.of_apply, dif_neg h, Matrix.smul_apply, Pi.smul_apply]

/-- Negating `[R | t]` acts blockwise. -/
theorem augment_neg (R : Matrix (Fin 3) (Fin 3) ℝ) (t : Fin 3 → ℝ) :
    augment (-R) (-t) = -augment R t := by
  ext i j
  by_cases h : (j : ℕ) < 3
  · simp only [augment, Matrix.of_apply, dif_pos h, Matrix.neg_apply, Pi.neg_apply]
  · simp only [augment, Matrix.of_apply, dif_neg h, Matrix.neg_apply, Pi.neg_apply]

/-- Pasting the leading block and last column back together recovers `P`. -/
theorem augment_left_last (P : Matrix (Fin 3) (Fin 4) ℝ) :
    augment (leftBlock P) (lastCol P) = P := by
  ext i j
  by_cases h : (j : ℕ) < 3
  · simp only [augment, Matrix.of_apply, dif_pos h, leftBlock, Matrix.submatrix_apply, id]
    congr 1
  · have hj : j = 3 := Fin.ext (by have := j.isLt; omega)
    subst hj
    simp only [augment, Matrix.of_apply, lastCol]
    rw [dif_neg h]

/-- In the reals, a nonzero number times its sign is positive. -/
theorem mul_sign_pos {x : ℝ} (hx : x ≠ 0) : 0 < x * Real.sign x := by
  rcases lt_or_gt_of_ne hx with h | h
  · rw [Real.sign_of_neg h]
    nlinarith
  · rw [Real.sign_of_pos h]
    nlinarith

/-- Claim C4: for every camera matrix `P` with nonsingular leading 3×3
block, and a QR collaborator obeying the numpy contract (orthogonal `Q`,
upper triangular `R`, `Q R` equal to the input) at the matrix
`(flipud P[:, :3]).T` actually passed to it, `KRt_from_P` returns `K`
upper-triangular with positive diagonal and `K[2,2] = 1`, a proper
rotation `R`, and `K @ [R|t]` equal to `P` up to a nonzero scale. -/
theorem claim_C4 (qr : Matrix (Fin 3) (Fin 3) ℝ →
      Matrix (Fin 3) (Fin 3) ℝ × Matrix (Fin 3) (Fin 3) ℝ)
    (P : Matrix (Fin 3) (Fin 4) ℝ)
    (hA : IsUnit (leftBlock P).det)
    (hQ : (qr (flipud (leftBlock P))ᵀ).1ᵀ * (qr (flipud (leftBlock P))ᵀ).1 = 1)
    (hR0 : upperTriangular (qr (flipud (leftBlock P))ᵀ).2)
    (hQR : (qr (flipud (leftBlock P))ᵀ).1 * (qr (flipud (leftBlock P))ᵀ).2 =
      (flipud (leftBlock P))ᵀ) :
    KRtSpec P (KRt_from_P qr P) := by
  set A := leftBlock P with hAdef
  set Q := (qr (flipud A)ᵀ).1 with hQdef
  set R0 := (qr (flipud A)ᵀ).2 with hR0def
  set K0 := fliplr (flipud R0ᵀ) with hK0def
  set Rot0 := flipud Qᵀ with hRot0def
  have hK0app : ∀ i j, K0 i j = R0 (Fin.rev j) (Fin.rev i) := fun i j => rfl
  have hK0ut : upperTriangular K0 := by
    intro i j hji
    rw [hK0app]
    exact hR0 _ _ (Fin.rev_lt_rev.mpr hji)
  have hK0Rot0 : K0 * Rot0 = A := by
    rw [hK0def, hRot0def, fliplr_eq, flipud_eq, flipud_eq]
    calc J3 * R0ᵀ * J3 * (J3 * Qᵀ)
        = J3 * R0ᵀ * (J3 * J3) * Qᵀ := by
          rw [Matrix.mul_assoc (J3 * R0ᵀ) J3 (J3 * Qᵀ),
            ← Matrix.mul_assoc J3 J3 Qᵀ, Matrix.mul_assoc (J3 * R0ᵀ) (J3 * J3) Qᵀ]
      _ = J3 * (R0ᵀ * Qᵀ) := by
          rw [J3_mul_J3, Matrix.mul_one, Matrix.mul_assoc]
      _ = J3 * (Q * R0)ᵀ := by rw [Matrix.transpose_mul]
      _ = J3 * (J3 * A) := by rw [hQR, Matrix.transpose_transpose, flipud_eq]
      _ = A := by rw [← Matrix.mul_assoc, J3_mul_J3, Matrix.one_mul]
  have hRot0o : Rot0ᵀ * Rot0 = 1 := by
    rw [hRot0def, flipud_eq, Matrix.transpose_mul, Matrix.transpose_transpose,
      J3_transpose]
    calc Q * J3 * (J3 * Qᵀ)
        = Q * (J3 * J3) * Qᵀ := by
          rw [Matrix.mul_assoc Q J3 (J3 * Qᵀ), ← Matrix.mul_assoc J3 J3 Qᵀ,
            Matrix.mul_assoc Q (J3 * J3) Qᵀ]
      _ = Q * Qᵀ := by rw [J3_mul_J3, Matrix.mul_one]
      _ = 1 := Matrix.mul_eq_one_comm.mp hQ
  have hK0detprod : K0.det = ∏ i, K0 i i :=
    Matrix.det_of_upperTriangular (fun i j h => hK0ut i j h)
  have hK0det : IsUnit K0.det := by
    have hsplit : A.det = K0.det * Rot0.det := by
      rw [← hK0Rot0, Matrix.det_mul]
    have hAdet := hA
    rw [hsplit] at hAdet
    exact isUnit_of_mul_isUnit_left hAdet
  have hK0diag : ∀ i, K0 i i ≠ 0 := by
    intro i
    have hne : (∏ i, K0 i i) ≠ 0 := by
      rw [← hK0detprod]
      exact hK0det.ne_zero
    exact Finset.prod_ne_zero_iff.mp hne i (Finset.mem_univ i)
  set T := Matrix.diagonal (fun i => Real.sign (K0 i i)) with hTdef
  have hsign : ∀ i, Real.sign (K0 i i) * Real.sign (K0 i i) = 1 := by
    intro i
    rcases lt_or_gt_of_ne (hK0diag i) with h | h
    · rw [Real.sign_of_neg h]
      norm_num
    · rw [Real.sign_of_pos h]
      norm_num
  have hTT : T * T = 1 := by
    rw [hTdef, Matrix.diagonal_mul_diagonal]
    have hfun : (fun i => Real.sign (K0 i i) * Real.sign (K0 i i)) = fun _ => (1 : ℝ) :=
      funext hsign
    rw [hfun, Matrix.diagonal_one]
  have hTt : Tᵀ = T := Matrix.diagonal_transpose _
  set K1 := K0 * T with hK1def
  set R1 := T * Rot0 with hR1def
  have hK1R1 : K1 * R1 = A := by
    rw [hK1def, hR1def, Matrix.mul_assoc K0 T (T * Rot0),
      ← Matrix.mul_assoc T T Rot0, hTT, Matrix.one_mul]
    exact hK0Rot0
  have hK1app : ∀ i j, K1 i j = K0 i j * Real.sign (K0 j j) := by
    intro i j
    rw [hK1def, hTdef, Matrix.mul_diagonal]
  have hK1ut : upperTriangular K1 := by
    intro i j h
    rw [hK1app, hK0ut i j h, zero_mul]
  have hK1diag : ∀ i, 0 < K1 i i := by
    intro i
    rw [hK1app]
    exact mul_sign_pos (hK0diag i)
  have hR1o : R1ᵀ * R1 = 1 := by
    rw [hR1def, Matrix.transpose_mul, hTt,
      Matrix.mul_assoc Rot0ᵀ T (T * Rot0), ← Matrix.mul_assoc T T Rot0, hTT,
      Matrix.one_mul]
    exact hRot0o
  have hdetR1 : R1.det = 1 ∨ R1.det = -1 := by
    have hsq : R1.det * R1.det = 1 := by
      have h := congrArg Matrix.det hR1o
      rwa [Matrix.det_mul, Matrix.det_transpose, Matrix.det_one] at h
    exact mul_self_eq_one_iff.mp hsq
  have hK1det : IsUnit K1.det := by
    have hprod : K1.det = ∏ i, K1 i i :=
      Matrix.det_of_upperTriangular (fun i j h => hK1ut i j h)
    rw [hprod]
    exact isUnit_iff_ne_zero.mpr
      (Finset.prod_ne_zero_iff.mpr fun i _ => ne_of_gt (hK1diag i))
  set t1 := K1⁻¹ *ᵥ lastCol P with ht1def
  have hKt : K1 *ᵥ t1 = lastCol P := by
    rw [ht1def, Matrix.mulVec_mulVec, Matrix.mul_nonsing_inv _ hK1det,
      Matrix.one_mulVec]
  have hKRt : KRt_from_P qr P =
      ((K1 2 2)⁻¹ • K1, if R1.det < 0 then -R1 else R1,
        if R1.det < 0 then -t1 else t1) := rfl
  have hK22 : K1 2 2 ≠ 0 := ne_of_gt (hK1diag 2)
  rw [hKRt]
  refine ⟨?_, ?_, ?_, ?_, ?_, ?_⟩
  · intro i j h
    show (K1 2 2)⁻¹ • K1 i j = 0
    rw [smul_eq_mul, hK1ut i j h, mul_zero]
  · intro i
    show 0 < (K1 2 2)⁻¹ • K1 i i
    rw [smul_eq_mul]
    exact mul_pos (inv_pos.mpr (hK1diag 2)) (hK1diag i)
  · show (K1 2 2)⁻¹ • K1 2 2 = 1
    rw [smul_eq_mul, inv_mul_cancel₀ hK22]
  · show (if R1.det < 0 then -R1 else R1)ᵀ * (if R1.det < 0 then -R1 else R1) = 1
    by_cases h : R1.det < 0
    · rw [if_pos h, Matrix.transpose_neg, Matrix.neg_mul, Matrix.mul_neg, neg_neg]
      exact hR1o
    · rw [if_neg h]
      exact hR1o
  · show (if R1.det < 0 then -R1 else R1).det = 1
    by_cases h : R1.det < 0
    · rw [if_pos h, Matrix.det_neg]
      have hm1 : R1.det = -1 := by
        rcases hdetR1 with h1 | h1
        · rw [h1] at h
          norm_num at h
        · exact h1
      rw [hm1]
      norm_num
    · rcases hdetR1 with h1 | h1
      · rw [if_neg h]
        exact h1
      · rw [h1] at h
        norm_num at h
  · show ∃ s : ℝ, s ≠ 0 ∧
        ((K1 2 2)⁻¹ • K1) * augment (if R1.det < 0 then -R1 else R1)
          (if R1.det < 0 then -t1 else t1) = s • P
    by_cases h : R1.det < 0
    · refine ⟨-(K1 2 2)⁻¹, by simpa using hK22, ?_⟩
      rw [if_pos h, if_pos h, Matrix.smul_mul, mul_augment, Matrix.mul_neg,
        Matrix.mulVec_neg, hK1R1, hKt, augment_neg, augment_left_last]
      rw [smul_neg, neg_smul]
    · refine ⟨(K1 2 2)⁻¹, inv_ne_zero hK22, ?_⟩
      rw [if_neg h, if_neg h, Matrix.smul_mul, mul_augment, hK1R1, hKt,
        augment_left_last]

/-- Witness for C4 at the camera `[I | 0]` with a QR collaborator whose
output at the actually-passed matrix satisfies the QR contract. -/
theorem claim_C4_witness :
    (IsUnit (leftBlock Pid).det ∧
        (qrJ (flipud (leftBlock Pid))ᵀ).1ᵀ * (qrJ (flipud (leftBlock Pid))ᵀ).1 = 1 ∧
        upperTriangular (qrJ (flipud (leftBlock Pid))ᵀ).2 ∧
        (qrJ (flipud (leftBlock Pid))ᵀ).1 * (qrJ (flipud (leftBlock Pid))ᵀ).2 =
          (flipud (leftBlock Pid))ᵀ) ∧
      KRtSpec Pid (KRt_from_P qrJ Pid) := by
  have hq1 : (qrJ (flipud (leftBlock Pid))ᵀ).1 = J3 := rfl
  have hq2 : (qrJ (flipud (leftBlock Pid))ᵀ).2 = 1 := rfl
  have hlb : leftBlock Pid = 1 := by
    ext i j
    fin_cases i <;> fin_cases j <;> rfl
  have hflip : (flipud (1 : Matrix (Fin 3) (Fin 3) ℝ))ᵀ = J3 := by
    have h0 : Fin.rev (0 : Fin 3) = 2 := by decide
    have h1 : Fin.rev (1 : Fin 3) = 1 := by decide
    have h2 : Fin.rev (2 : Fin 3) = 0 := by decide
    ext i j
    fin_cases i <;> fin_cases j <;>
      simp [flipud, J3, Matrix.transpose_apply, Matrix.submatrix_apply,
        Matrix.one_apply, h0, h1, h2, Matrix.vecHead, Matrix.vecTail]
  have hA : IsUnit (leftBlock Pid).det := by
    rw [hlb]
    simp
  have hQ : (qrJ (flipud (leftBlock Pid))ᵀ).1ᵀ * (qrJ (flipud (leftBlock Pid))ᵀ).1 = 1 := by
    rw [hq1, J3_transpose, J3_mul_J3]
  have hR0 : upperTriangular (qrJ (flipud (leftBlock Pid))ᵀ).2 := by
    intro i j h
    rw [hq2]
    exact Matrix.one_apply_ne (ne_of_gt h)
  have hQR : (qrJ (flipud (leftBlock Pid))ᵀ).1 * (qrJ (flipud (leftBlock Pid))ᵀ).2 =
      (flipud (leftBlock Pid))ᵀ := by
    rw [hq1, hq2, Matrix.mul_one, hlb, hflip]
  exact ⟨⟨hA, hQ, hR0, hQR⟩, claim_C4 qrJ Pid hA hQ hR0 hQR⟩

end Reconstruction
